import Mathlib

/-!
Verification of the Stockast algo-bot core (backend of `src/algo-bot`):
the indicator library and probability scorer (`indicators.py`), the
strategy evaluation and hourly ranking (`strategies.py`, `main.py`), the
symbols / klines persistence (`db.py`) and the rate-limited market-data
client (`api.py`), shallowly embedded over rational numbers.

Modelling conventions:
* a pandas float64 cell is `Option ℚ`: `some q` is a finite number,
  `none` is NaN;
* pandas comparisons with NaN are `False` (`pgt`, `plt` below);
* division by zero, which in IEEE arithmetic produces ±inf or NaN, is
  modelled as `none` (undefined) at every site where it can occur, except
  inside RSI where the `gain/loss = +inf ⇒ RSI = 100` limit of the source
  formula is spelled out explicitly (`rsiPoint`);
* `rolling(window=w)` uses the pandas default `min_periods = w`: the
  output is NaN until `w` observations exist and whenever the window
  contains a NaN.
-/

namespace Stockast

/-- Model of a pandas float64 value: `some q` is a finite number, `none` is NaN. -/
abbrev PVal := Option ℚ

/-- Model of a pandas Series of float64 values, positionally indexed. -/
abbrev Series := List PVal

/-- Model of pandas `a > b`: any comparison against NaN is `False`. -/
def pgt : PVal → PVal → Bool
  | some a, some b => decide (b < a)
  | _, _ => false

/-- Model of pandas `a < b`: any comparison against NaN is `False`. -/
def plt : PVal → PVal → Bool
  | some a, some b => decide (a < b)
  | _, _ => false

/-- NaN-propagating binary arithmetic on pandas values. -/
def pmap2 (f : ℚ → ℚ → ℚ) : PVal → PVal → PVal
  | some a, some b => some (f a b)
  | _, _ => none

/-- Model of pandas `series.shift(1)`: one leading NaN, last value dropped. -/
def shift1 (s : Series) : Series := (none :: s).take s.length

/-- Model of pandas `series.diff()`: `s - s.shift(1)` with NaN propagation. -/
def sdiff (s : Series) : Series := List.zipWith (pmap2 (· - ·)) s (shift1 s)

/-- Model of `delta.where(delta > 0, 0)`: keep positive entries, everything
else (including NaN, whose comparison is False) becomes 0. -/
def posPart (s : Series) : Series :=
  s.map fun o => if pgt o (some 0) then o else some 0

/-- Model of `-delta.where(delta < 0, 0)`: negated negative entries,
everything else (including NaN) becomes 0. -/
def negPart (s : Series) : Series :=
  s.map fun o => if plt o (some 0) then o.map (fun x => -x) else some 0

/-- Window of the last `w` positions ending at index `i` (inclusive). -/
def rwindow (w : ℕ) (s : Series) (i : ℕ) : List PVal :=
  (s.take (i + 1)).drop (i + 1 - w)

/-- Model of pandas `series.rolling(window=w).apply`: NaN until `w`
observations exist (pandas default `min_periods = window`) and whenever the
window contains a NaN, otherwise `f` of the window values. -/
def rollingApply (f : List ℚ → ℚ) (w : ℕ) (s : Series) : Series :=
  (List.range s.length).map fun i =>
    if i + 1 < w then none
    else
      let win := rwindow w s i
      if win.all Option.isSome then some (f (win.map (fun o => o.getD 0))) else none

/-- Model of pandas `series.rolling(window=w).mean()`. -/
def rollingMean (w : ℕ) (s : Series) : Series :=
  rollingApply (fun l => l.sum / (w : ℚ)) w s

/-- Model of `indicators.py calculate_sma`: `series.rolling(window=length).mean()`. -/
def calculate_sma (s : Series) (length : ℕ) : Series := rollingMean length s

/-- Pointwise RSI formula `100 - 100/(1 + gain/loss)` with the IEEE
semantics of the division spelled out: `loss > 0` gives the finite formula,
`loss = 0 < gain` gives `rs = +inf` hence RSI `= 100 - 100/inf = 100`, and
`gain = loss = 0` gives `rs = 0/0 = NaN` hence RSI NaN. -/
def rsiPoint : PVal → PVal → PVal
  | some g, some l =>
      if 0 < l then some (100 - 100 / (1 + g / l))
      else if 0 < g then some 100
      else none
  | _, _ => none

/-- Model of `indicators.py calculate_rsi`: rolling means of the clamped
positive/negative parts of `series.diff()`, combined by `rsiPoint`. -/
def calculate_rsi (s : Series) (period : ℕ) : Series :=
  let delta := sdiff s
  let gain := rollingMean period (posPart delta)
  let loss := rollingMean period (negPart delta)
  List.zipWith rsiPoint gain loss

/-- Recursion of pandas `ewm(span=·).mean()` with the default
`adjust=True`: running weighted numerator and denominator. -/
def ewmGo (a : ℚ) (num den : ℚ) : List ℚ → List ℚ
  | [] => []
  | x :: xs =>
      let n := x + (1 - a) * num
      let d := 1 + (1 - a) * den
      (n / d) :: ewmGo a n d xs

/-- Model of pandas `series.ewm(span=span).mean()` on an all-finite series
(`α = 2/(span+1)`, `adjust=True`); defined from the first index on — an EWM
has no warm-up window. -/
def ewmMean (span : ℕ) (s : List ℚ) : List ℚ :=
  ewmGo (2 / ((span : ℚ) + 1)) 0 0 s

/-- Result triple of `indicators.py calculate_macd`. -/
structure MacdResult where
  macd : List ℚ
  signal : List ℚ
  hist : List ℚ

/-- Model of `indicators.py calculate_macd`: EMA difference, its own EMA as
signal line, and their difference as histogram. On an all-finite input every
output position is a finite number from index 0 on. -/
def calculate_macd (s : List ℚ) (fast slow sig : ℕ) : MacdResult :=
  let ema_fast := ewmMean fast s
  let ema_slow := ewmMean slow s
  let macd_line := List.zipWith (· - ·) ema_fast ema_slow
  let signal_line := ewmMean sig macd_line
  let histogram := List.zipWith (· - ·) macd_line signal_line
  ⟨macd_line, signal_line, histogram⟩

/-- Model of a finite-valued OHLCV DataFrame. Only the close and volume
columns are read by the indicator and scoring functions under
verification; the open/high/low columns are never touched by them. -/
structure Frame where
  close : List ℚ
  volume : List ℚ
  hlen : volume.length = close.length

/-- Model of `indicators.py volume_spike`:
`(df['volume'] > avg_vol * multiplier).astype(int)`. The comparison against
a NaN average is False, so the output is the integer 0 there — the output
column holds integers at every index, never NaN. -/
def volume_spike (df : Frame) (multiplier : ℚ) (period : ℕ) : List ℤ :=
  let avg_vol := rollingMean period (df.volume.map some)
  List.zipWith
    (fun v a => if pgt (some v) (a.map (· * multiplier)) then (1 : ℤ) else 0)
    df.volume avg_vol

/-- Model of `indicators.py volume_ratio`: `df['volume'] / avg_vol`. A NaN
average gives NaN; division by a zero average (IEEE ±inf or NaN) is
modelled as undefined — the rolling window contains the current bar, so
with nonnegative volumes a zero average forces a zero numerator (0/0, NaN
in the source as well). -/
def volume_ratio (df : Frame) (period : ℕ) : Series :=
  let avg_vol := rollingMean period (df.volume.map some)
  List.zipWith
    (fun v a => a.bind fun m => if m = 0 then none else some (v / m))
    df.volume avg_vol

/-- Model of pandas `close.pct_change()`: `(c_t - c_{t-1}) / c_{t-1}`, NaN
at index 0; a zero previous close (IEEE ±inf or NaN) is modelled as
undefined. -/
def pct_change (s : List ℚ) : Series :=
  List.zipWith
    (fun (cur : ℚ) prev => prev.bind fun p => if p = 0 then none else some ((cur - p) / p))
    s (shift1 (s.map some))

/-- Sample variance with `ddof = 1` (the pandas `.std()` default, squared). -/
def sampleVar (l : List ℚ) : ℚ :=
  let n : ℚ := l.length
  let m := l.sum / n
  ((l.map (fun x => (x - m) ^ 2)).sum) / (n - 1)

/-- Model of `indicators.py calculate_volatility`, squared: the source
returns `returns.rolling(window).std() * sqrt(periods_per_year)`; the
square (rolling sample variance times `periods_per_year`) is used so the
value stays rational. Both values are nonnegative where defined, so the
square is order-isomorphic to the source value — every threshold
comparison `vol > c` in the scorer is translated to `vol_sq > c^2` — and
the NaN structure is identical. -/
def calculate_volatility_sq (df : Frame) (window : ℕ) (interval1h : Bool) : Series :=
  let returns := pct_change df.close
  let varS := rollingApply sampleVar window returns
  let periods_per_year : ℚ := if interval1h then 24 * 365 else 24 * 365 * 12
  varS.map (·.map (· * periods_per_year))

/-- Model of `indicators.py hourly_trend`: four votes weighted 0.25 each
(`astype(int) * 0.25`; NaN comparisons count as False), summed, then
`np.where(trend > 0.5, 1, np.where(trend < -0.5, -1, 0))` producing an
integer series. -/
def hourly_trend (df : Frame) (short_ma long_ma : ℕ) : List ℤ :=
  let ma_short := calculate_sma (df.close.map some) short_ma
  let ma_long := calculate_sma (df.close.map some) long_ma
  let rsi := calculate_rsi (df.close.map some) 14
  let macd := (calculate_macd df.close 12 26 9).hist
  let price_above_ma : List ℚ :=
    List.zipWith (fun c m => if pgt (some c) m then (1 : ℚ)/4 else 0) df.close ma_long
  let short_above_long : List ℚ :=
    List.zipWith (fun a b => if pgt a b then (1 : ℚ)/4 else 0) ma_short ma_long
  let macd_positive : List ℚ :=
    macd.map (fun h => if 0 < h then (1 : ℚ)/4 else 0)
  let rsi_bull : List ℚ :=
    rsi.map (fun r => if pgt r (some 50) then (1 : ℚ)/4 else 0)
  let trend :=
    List.zipWith (· + ·)
      (List.zipWith (· + ·) (List.zipWith (· + ·) price_above_ma short_above_long) macd_positive)
      rsi_bull
  trend.map (fun t => if 1/2 < t then (1 : ℤ) else if t < -(1/2) then -1 else 0)

/-- Model of `np.clip(x, -1, 1)`. -/
def clip1 (x : ℚ) : ℚ := max (-1) (min x 1)

/-- Model of `np.sign` on a finite value. -/
def signQ (x : ℚ) : ℚ := if 0 < x then 1 else if x < 0 then -1 else 0

/-- Model of `indicators.py get_probability_score`: the `.iloc[-1]`
weighted composite. Rows with fewer than 50 observations return 0. The
result is `none` exactly where the source returns NaN (possible through
the RSI and volume-ratio terms, which are NaN-propagating and not filled);
otherwise it is `np.clip(weighted_sum, -1, 1)`. The `getLastD` defaults
are never read: in the else-branch every intermediate series has the
(positive) length of the input. -/
def get_probability_score (df : Frame) : Option ℚ :=
  if df.close.length < 50 then some 0
  else
    let trend : ℚ := ((hourly_trend df 10 50).getLastD 0 : ℤ)
    let rsiL : PVal := (calculate_rsi (df.close.map some) 14).getLastD none
    let score_rsi : PVal := rsiL.map (fun r => -(r - 50) / 50)
    let macd_hist : ℚ := (calculate_macd df.close 12 26 9).hist.getLastD 0
    let score_macd : ℚ := if 0 < macd_hist then 1 else -1
    let spike : ℤ := (volume_spike df 2 10).getLastD 0
    let score_spike : ℚ := (spike : ℚ) * trend
    let r5 : PVal := (volume_ratio df 5).getLastD none
    let score_r5 : PVal := r5.map (fun x => (x - 1) * 2 * trend)
    let r10 : PVal := (volume_ratio df 10).getLastD none
    let score_r10 : PVal := r10.map (fun x => (x - 1) * 2 * trend)
    let vol_1h : PVal := (calculate_volatility_sq df 5 true).getLastD none
    let score_vol : ℚ := if pgt vol_1h (some (1/2500)) then 1/2 * trend else -(1/2) * trend
    let ma_s : PVal := (calculate_sma (df.close.map some) 10).getLastD none
    let ma_l : PVal := (calculate_sma (df.close.map some) 50).getLastD none
    let score_cross : ℚ := if pgt ma_s ma_l then 1 else -1
    (score_rsi.bind fun sr => score_r5.bind fun s5 => score_r10.bind fun s10 =>
      some (trend * (3/10) + sr * (2/10) + score_macd * (15/100) + score_spike * (1/10)
        + s5 * (5/100) + s10 * (5/100) + score_vol * (5/100) + score_cross * (5/100))).map clip1

/-- Pointwise sum of two equal-length columns. -/
def addS (a b : List ℚ) : List ℚ := List.zipWith (· + ·) a b

/-- Scalar multiple of a column. -/
def scaleS (w : ℚ) (a : List ℚ) : List ℚ := a.map (w * ·)

/-- Model of `scores_df[k].fillna(0)`. -/
def fillna0 (s : Series) : List ℚ := s.map (fun o => o.getD 0)

/-- Model of `indicators.py calculate_probability_score_series`: the
vectorized scorer. Fewer than 50 rows give the constant 0 series;
otherwise each term is computed as a full column, `fillna(0)`-ed,
weighted, summed in the source's dict order and clipped to [-1, 1] —
so every output position is a finite number. -/
def calculate_probability_score_series (df : Frame) : List ℚ :=
  if df.close.length < 50 then List.replicate df.close.length 0
  else
    let trendQ : List ℚ := (hourly_trend df 10 50).map (fun t => (t : ℚ))
    let rsi_s : Series :=
      (calculate_rsi (df.close.map some) 14).map (·.map (fun r => -(r - 50) / 50))
    let macd_s : List ℚ := (calculate_macd df.close 12 26 9).hist.map signQ
    let spike_s : List ℚ :=
      List.zipWith (fun (sp : ℤ) t => (sp : ℚ) * t) (volume_spike df 2 10) trendQ
    let r5_s : Series :=
      List.zipWith (fun r t => r.map (fun x => (x - 1) * 2 * t)) (volume_ratio df 5) trendQ
    let r10_s : Series :=
      List.zipWith (fun r t => r.map (fun x => (x - 1) * 2 * t)) (volume_ratio df 10) trendQ
    let vol_s : List ℚ :=
      List.zipWith (fun v t => if pgt v (some (1/2500)) then 1/2 * t else -(1/2) * t)
        (calculate_volatility_sq df 5 true) trendQ
    let cross_s : List ℚ :=
      List.zipWith (fun a b => if pgt a b then (1 : ℚ) else -1)
        (calculate_sma (df.close.map some) 10) (calculate_sma (df.close.map some) 50)
    let weighted :=
      addS (scaleS (3/10) trendQ)
        (addS (scaleS (2/10) (fillna0 rsi_s))
          (addS (scaleS (15/100) macd_s)
            (addS (scaleS (1/10) spike_s)
              (addS (scaleS (5/100) (fillna0 r5_s))
                (addS (scaleS (5/100) (fillna0 r10_s))
                  (addS (scaleS (5/100) vol_s) (scaleS (5/100) cross_s)))))))
    weighted.map clip1

/-- Model of `indicators.py momentum_roc`:
`((series - series.shift(periods)) / series.shift(periods)) * 100`; NaN for
the first `periods` positions, and a zero shifted close (IEEE ±inf or NaN)
is modelled as undefined. -/
def momentum_roc (s : List ℚ) (periods : ℕ) : Series :=
  let shifted := ((List.replicate periods none : Series) ++ s.map some).take s.length
  List.zipWith
    (fun (cur : ℚ) prev =>
      prev.bind fun p => if p = 0 then none else some ((cur - p) / p * 100))
    s shifted

/-! ## Strategy evaluation (spec-modelled) and stage C emission -/

/-- Strategy configuration row (db.py `strategies` table): only the two
fields the signal rule reads. -/
structure StrategyConfig where
  min_signals : ℕ
  prob_threshold : ℚ

/-- Return shape of the strategy evaluation. -/
structure StrategyEval where
  signal : Bool
  prob_score : ℚ
  confidence : ℚ
  signal_count : ℕ

/-- Modelled from the spec: `evaluate_strategy` is imported by
`backend/main.py` from `backend/strategies.py`, but its definition is
absent from the sources in this repository snapshot (only its callers are
present). Spec §4.4: `confidence = (fired_count / total_indicator_count) ×
max(composite_score, 0)` and `signal = (fired_count ≥ config.min_signals)
AND (composite_score ≥ config.prob_threshold)`. -/
def evaluate_strategy (fired_count total_count : ℕ) (prob_score : ℚ)
    (cfg : StrategyConfig) : StrategyEval :=
  ⟨decide (cfg.min_signals ≤ fired_count) && decide (cfg.prob_threshold ≤ prob_score),
   prob_score,
   (fired_count : ℚ) / (total_count : ℚ) * max prob_score 0,
   fired_count⟩

/-- Model of the per-candidate decision of `main.py poll_5m_confirm`:
`momentum = df['momentum_roc'].iloc[-1] if 'momentum_roc' in df and not
pd.isna(...) else 0` — a missing column or NaN value is coerced to 0 —
then `if momentum >= 0` emits a signal with `sl = price * 0.95` and
`tp = price * 1.10`. Returns the (stop-loss, take-profit) pair when a
Signal is emitted and saved, `none` when the candidate is skipped. -/
def poll_5m_confirm_signal (momentumLast : PVal) (price : ℚ) : Option (ℚ × ℚ) :=
  let momentum := momentumLast.getD 0
  if 0 ≤ momentum then some (price * (95/100), price * (110/100)) else none

/-! ## Symbols table (db.py) -/

/-- Row of the db.py `symbols` table: the columns that the activity
queries read (name, active flag, consecutive kline-failure counter). -/
structure SymRow where
  name : String
  is_active : Bool
  fail_count : ℕ

/-- config.py `MAX_KLINES_FAILURES`. -/
def MAX_KLINES_FAILURES : ℕ := 5

/-- Model of db.py `increment_klines_fail_count`: add 1 to the symbol's
counter, re-read it, and mark the symbol inactive when the counter has
reached `MAX_KLINES_FAILURES`. -/
def increment_klines_fail_count (tbl : List SymRow) (s : String) : List SymRow :=
  let t1 := tbl.map fun r =>
    if r.name = s then ⟨r.name, r.is_active, r.fail_count + 1⟩ else r
  match t1.find? (fun r => r.name = s) with
  | some r =>
      if MAX_KLINES_FAILURES ≤ r.fail_count then
        t1.map fun q => if q.name = s then ⟨q.name, false, q.fail_count⟩ else q
      else t1
  | none => t1

/-- Model of db.py `reset_klines_fail_count`: set the symbol's counter to 0. -/
def reset_klines_fail_count (tbl : List SymRow) (s : String) : List SymRow :=
  tbl.map fun r => if r.name = s then ⟨r.name, r.is_active, 0⟩ else r

/-- Model of db.py `get_all_symbols`:
`SELECT symbol FROM symbols WHERE is_active = 1 AND klines_fail_count < MAX_KLINES_FAILURES`. -/
def get_all_symbols (tbl : List SymRow) : List String :=
  (tbl.filter fun r => r.is_active && decide (r.fail_count < MAX_KLINES_FAILURES)).map (·.name)

/-- One upsert step of db.py `init_symbols_db`:
`INSERT ... ON CONFLICT(symbol) DO UPDATE SET is_active = excluded.is_active` —
an existing row only has its active flag set (the failure counter is
untouched), a new row starts with the column default `fail_count = 0`. -/
def upsertSymbol (tbl : List SymRow) (s : String) : List SymRow :=
  if tbl.any (fun r => decide (r.name = s)) then
    tbl.map fun r => if r.name = s then ⟨r.name, true, r.fail_count⟩ else r
  else tbl ++ [⟨s, true, 0⟩]

/-- Model of db.py `init_symbols_db` (universe sync): first
`UPDATE symbols SET is_active = 0` for every row, then upsert every symbol
reported tradable by the exchange. -/
def init_symbols_db (tbl : List SymRow) (apiSyms : List String) : List SymRow :=
  apiSyms.foldl upsertSymbol (tbl.map fun r => ⟨r.name, false, r.fail_count⟩)

/-! ## Hourly ranking (main.py hourly_scan) and snapshot rows -/

/-- Scan result for one symbol: its name and composite probability score
as produced by the scorer during the hourly scan. -/
structure Candidate where
  symbol : String
  prob_score : ℚ

/-- Row of the ranked snapshot handed to db.py `insert_top_symbols`. -/
structure RankedRow where
  symbol : String
  prob_score : ℚ
  rank : ℕ

/-- Model of the ranking step of `main.py hourly_scan`: candidates with
strictly positive score (the `result['prob_score'] > 0` append inside the
scan loop), sorted descending by score (Python's stable sort with
`reverse=True`), truncated to the top 100, and ranked by 1-based
enumeration — the list passed to `insert_top_symbols`. -/
def hourlyTopList (cands : List Candidate) : List RankedRow :=
  let pos := cands.filter fun c => decide (0 < c.prob_score)
  let top_100 := (pos.mergeSort fun a b => decide (b.prob_score ≤ a.prob_score)).take 100
  top_100.enum.map fun p => ⟨p.2.symbol, p.2.prob_score, p.1 + 1⟩

/-! ## Kline persistence (db.py save_klines_by_interval) -/

/-- Stored enriched kline row: the UNIQUE(symbol, timestamp) key columns,
plus the remaining enriched columns (prices, volumes, indicators) bundled
as an opaque payload — the INSERT OR IGNORE conflict rule only reads the
key. -/
structure KRow where
  symbol : String
  timestamp : ℤ
  fields : List PVal

/-- Natural key of a kline row: the UNIQUE(symbol, timestamp) pair. -/
def krowKey (r : KRow) : String × ℤ := (r.symbol, r.timestamp)

/-- Single-row INSERT OR IGNORE against a klines table: the row is
appended unless a row with the same (symbol, timestamp) key is already
present, in which case the statement is a silent no-op. -/
def insertOrIgnore (tbl : List KRow) (r : KRow) : List KRow :=
  if tbl.any (fun x => decide (krowKey x = krowKey r)) then tbl else tbl ++ [r]

/-- Model of db.py `save_klines_by_interval`: `executemany` of
`INSERT OR IGNORE INTO klines_{interval} ...` runs the single-row insert
for each enriched row in order (so a duplicate key inside one batch is
also ignored). -/
def save_klines_by_interval (tbl : List KRow) (rows : List KRow) : List KRow :=
  rows.foldl insertOrIgnore tbl

/-! ## Rate gate (api.py MexcAPI._request) -/

/-- One pass through the rate gate of `api.py MexcAPI._request`, on a
logical clock: `s` is the recorded start time of the previous request and
`adv` the ambient wall-clock advance since then (`elapsed`). If
`elapsed < rate_limit_delay` the gate sleeps for the remainder, so the new
request start time is `s + d`; otherwise it is `s + adv`. -/
def rateGateNext (d s adv : ℚ) : ℚ := if adv < d then s + d else s + adv

/-- Request start times of a sequence of gated requests: the first starts
at `s0`; each later request observes its ambient advance and passes the
gate. `advs` lists the ambient advances before each subsequent request. -/
def rateGateTimes (d s0 : ℚ) : List ℚ → List ℚ
  | [] => [s0]
  | a :: rest => s0 :: rateGateTimes d (rateGateNext d s0 a) rest

/-! ## Uniform request errors (api.py MexcAPI._request) -/

/-- Parsed JSON body of a response, abstracted to what the error check
reads: a dict carrying a `code` field (with its `msg`), or anything else
(a list, or a dict without `code`). -/
inductive RespBody where
  | dictCode (code : ℤ) (msg : String)
  | plain
deriving DecidableEq

/-- Outcome of the underlying HTTP call: a transport failure (connection
error, timeout, ...) with the text of the raised requests exception, or a
response with an HTTP status and parsed body. -/
inductive ReqOutcome where
  | transportFail (cause : String)
  | httpResp (status : ℕ) (body : RespBody)
deriving DecidableEq

/-- Message of requests' `raise_for_status` HTTPError (which embeds the
URL), abbreviated: `"<status> Error for url: <endpoint>"`. -/
def httpErrorText (status : ℕ) (endpoint : String) : String :=
  toString status ++ (" Error for url: ") ++ endpoint

/-- Model of `api.py MexcAPI._request` error handling. `raise_for_status`
raises (a RequestException, re-raised as `ValueError("Request failed: …")`)
exactly for 4xx/5xx statuses; an in-body error code on a non-error status
raises `ValueError("API error: …")` directly, uncaught by the
RequestException handler; otherwise the parsed body is returned. The
`Except.error` string is the message of the raised ValueError. -/
def mexc_request (endpoint : String) (o : ReqOutcome) : Except String RespBody :=
  match o with
  | .transportFail cause => .error (("Request failed: ") ++ cause)
  | .httpResp status body =>
      if 400 ≤ status ∧ status < 600 then
        .error (("Request failed: ") ++ httpErrorText status endpoint)
      else
        match body with
        | .dictCode code msg =>
            if code ≠ 200 then .error (("API error: ") ++ msg) else .ok body
        | .plain => .ok body

/-- Decidable substring test on strings. -/
def strContains (hay needle : String) : Bool := decide (needle.data <:+: hay.data)

/-! ## Shared helper lemmas -/

theorem mem_zipWith_exists {α β γ : Type} {f : α → β → γ} {l1 : List α} {l2 : List β} {z : γ}
    (h : z ∈ List.zipWith f l1 l2) : ∃ x ∈ l1, ∃ y ∈ l2, z = f x y := by
  induction l1 generalizing l2 with
  | nil => simp at h
  | cons a as ih =>
    cases l2 with
    | nil => simp at h
    | cons b bs =>
      simp only [List.zipWith_cons_cons, List.mem_cons] at h
      rcases h with h | h
      · exact ⟨a, by simp, b, by simp, h⟩
      · obtain ⟨x, hx, y, hy, hz⟩ := ih h
        exact ⟨x, by simp [hx], y, by simp [hy], hz⟩

theorem zipWith_replicate_same {α β γ : Type} (f : α → β → γ) (n : ℕ) (a : α) (b : β) :
    List.zipWith f (List.replicate n a) (List.replicate n b) = List.replicate n (f a b) := by
  induction n with
  | zero => rfl
  | succ k ih => simp [List.replicate_succ, ih]

theorem all_replicate_of_pred {α : Type} (p : α → Bool) (n : ℕ) (a : α) (h : p a = true) :
    (List.replicate n a).all p = true := by
  induction n with
  | zero => rfl
  | succ k ih => simp [List.replicate_succ, h, ih]

theorem ewmGo_length (a : ℚ) (num den : ℚ) (l : List ℚ) :
    (ewmGo a num den l).length = l.length := by
  induction l generalizing num den with
  | nil => rfl
  | cons x xs ih => simp [ewmGo, ih]

theorem ewmMean_length (span : ℕ) (l : List ℚ) : (ewmMean span l).length = l.length :=
  ewmGo_length _ _ _ l

theorem clip1_mem (x : ℚ) : -1 ≤ clip1 x ∧ clip1 x ≤ 1 := by
  refine ⟨le_max_left _ _, max_le (by norm_num) (min_le_right x 1)⟩

/-! ## C10: hourly_trend never produces -1 -/

/-- C10: every value produced by the composite trend function
`hourly_trend` is 0 or 1; the bearish value -1 is never produced, because
each of the four vote terms is nonnegative (0 or 0.25), so the vote sum
can never fall below -0.5. -/
theorem hourly_trend_values (df : Frame) (short_ma long_ma : ℕ) :
    ∀ t ∈ hourly_trend df short_ma long_ma, t = 0 ∨ t = 1 := by
  intro t ht
  unfold hourly_trend at ht
  simp only [List.mem_map] at ht
  obtain ⟨s, hs, rfl⟩ := ht
  have hs0 : 0 ≤ s := by
    obtain ⟨x, hx, y, hy, rfl⟩ := mem_zipWith_exists hs
    obtain ⟨x1, hx1, y1, hy1, rfl⟩ := mem_zipWith_exists hx
    obtain ⟨x2, hx2, y2, hy2, rfl⟩ := mem_zipWith_exists hx1
    have h2 : 0 ≤ x2 := by
      obtain ⟨c, -, m, -, rfl⟩ := mem_zipWith_exists hx2
      split <;> norm_num
    have h3 : 0 ≤ y2 := by
      obtain ⟨c, -, m, -, rfl⟩ := mem_zipWith_exists hy2
      split <;> norm_num
    have h4 : 0 ≤ y1 := by
      simp only [List.mem_map] at hy1
      obtain ⟨h, -, rfl⟩ := hy1
      split <;> norm_num
    have h5 : 0 ≤ y := by
      simp only [List.mem_map] at hy
      obtain ⟨r, -, rfl⟩ := hy
      split <;> norm_num
    positivity
  split
  · exact Or.inr rfl
  · split
    · exfalso; linarith
    · exact Or.inl rfl

/-- Witness for C10 at a concrete one-row frame (whose single trend value
is 0). -/
theorem hourly_trend_values_witness : (0 : ℤ) = 0 ∨ (0 : ℤ) = 1 :=
  hourly_trend_values ⟨[1], [1], rfl⟩ 10 50 0 (by
    norm_num [hourly_trend, calculate_sma, rollingMean, rollingApply, rwindow,
      calculate_rsi, sdiff, shift1, pmap2, posPart, negPart, pgt, plt, rsiPoint,
      calculate_macd, ewmMean, ewmGo, List.range_succ])

/-! ## C3: below min_signals never signals -/

/-- C3 (spec-modelled): if the number of fired indicator conditions is
strictly below the configuration's `min_signals`, the strategy
evaluation's `signal` field is False, regardless of the composite
probability score. -/
theorem evaluate_strategy_min_signals (fired total : ℕ) (score : ℚ)
    (cfg : StrategyConfig) (h : fired < cfg.min_signals) :
    (evaluate_strategy fired total score cfg).signal = false := by
  have hn : ¬ (cfg.min_signals ≤ fired) := not_le.mpr h
  simp [evaluate_strategy, hn]

/-- Witness for C3: 3 fired indicators against a config requiring 4 never
signal, even with a composite score of 1. -/
theorem evaluate_strategy_min_signals_witness :
    (evaluate_strategy 3 8 1 ⟨4, 7/10⟩).signal = false :=
  evaluate_strategy_min_signals 3 8 1 ⟨4, 7/10⟩ (by norm_num)

/-! ## C8: the 5m momentum gate -/

/-- C8 counterexample: with an undefined (NaN or absent) latest momentum
value and latest price 100, the Stage C check emits and persists a Signal
with bounds (95, 110) — the claim requires that no Signal be emitted when
the momentum value is undefined, but the source coerces an undefined
momentum to 0, which passes the `momentum >= 0` gate. -/
theorem momentum_undefined_emits_counterexample :
    poll_5m_confirm_signal none 100 = some (95, 110) := by
  norm_num [poll_5m_confirm_signal]

/-- C8 amended: for a top-20 candidate, a Signal (with stop-loss at 95%
and take-profit at 110% of the latest price) is emitted exactly when the
latest 5m momentum value is non-negative or undefined: an undefined
momentum is coerced to 0 and therefore passes the non-negativity gate
rather than being treated as absent. -/
theorem momentum_gate_amended (m : PVal) (price : ℚ) :
    (poll_5m_confirm_signal m price = some (price * (95/100), price * (110/100)) ↔
      (m = none ∨ ∃ q, m = some q ∧ 0 ≤ q)) ∧
    (poll_5m_confirm_signal m price = none ↔ ∃ q, m = some q ∧ q < 0) := by
  cases m with
  | none => simp [poll_5m_confirm_signal]
  | some q =>
    by_cases hq : 0 ≤ q
    · simp [poll_5m_confirm_signal, hq, not_lt.mpr hq]
    · simp [poll_5m_confirm_signal, hq, not_le.mp hq]

/-! ## C6: the rate gate -/

theorem rateGateTimes_length (d s0 : ℚ) (advs : List ℚ) :
    (rateGateTimes d s0 advs).length = advs.length + 1 := by
  induction advs generalizing s0 with
  | nil => rfl
  | cons a rest ih => simp [rateGateTimes, ih]

theorem rateGateTimes_headD (d s0 : ℚ) (advs : List ℚ) :
    (rateGateTimes d s0 advs).headD s0 = s0 := by
  cases advs <;> rfl

theorem rateGateTimes_getLastD_ge (d s0 : ℚ) (advs : List ℚ) (hd : 0 ≤ d)
    (ha : ∀ a ∈ advs, 0 ≤ a) :
    s0 + (advs.length : ℚ) * d ≤ (rateGateTimes d s0 advs).getLastD s0 := by
  induction advs generalizing s0 with
  | nil => simp [rateGateTimes]
  | cons a rest ih =>
    have hnext : s0 + d ≤ rateGateNext d s0 a := by
      unfold rateGateNext
      split
      · exact le_rfl
      · have hda : d ≤ a := le_of_not_lt (by assumption)
        linarith
    have hrest := ih (rateGateNext d s0 a) (fun x hx => ha x (List.mem_cons_of_mem _ hx))
    have hdefault :
        (rateGateTimes d (rateGateNext d s0 a) rest).getLastD s0 =
          (rateGateTimes d (rateGateNext d s0 a) rest).getLastD (rateGateNext d s0 a) := by
      cases hr : rateGateTimes d (rateGateNext d s0 a) rest with
      | nil => cases rest <;> simp [rateGateTimes] at hr
      | cons y ys => rw [List.getLastD_cons, List.getLastD_cons]
    calc s0 + ((a :: rest).length : ℚ) * d
        = (s0 + d) + (rest.length : ℚ) * d := by push_cast [List.length_cons]; ring
      _ ≤ rateGateNext d s0 a + (rest.length : ℚ) * d := by linarith
      _ ≤ (rateGateTimes d (rateGateNext d s0 a) rest).getLastD (rateGateNext d s0 a) := hrest
      _ = (rateGateTimes d s0 (a :: rest)).getLastD s0 := by
          rw [rateGateTimes, List.getLastD_cons, hdefault]

/-- C6: a client issuing N sequential requests through the rate gate with
configured minimum interval `d` takes at least `(N-1) * d` of (logical)
wall-clock time between the first and the last request start, for every
nonnegative ambient-delay trace. -/
theorem rate_gate_min_elapsed (d s0 : ℚ) (advs : List ℚ) (hd : 0 ≤ d)
    (ha : ∀ a ∈ advs, 0 ≤ a) :
    (((rateGateTimes d s0 advs).length : ℚ) - 1) * d ≤
      (rateGateTimes d s0 advs).getLastD s0 - (rateGateTimes d s0 advs).headD s0 := by
  have h1 := rateGateTimes_getLastD_ge d s0 advs hd ha
  rw [rateGateTimes_length, rateGateTimes_headD]
  push_cast
  linarith

/-- Witness for C6: three requests (N = 3) with d = 1/10 and no ambient
delay take at least 2/10 between the first and last request start. -/
theorem rate_gate_min_elapsed_witness :
    (((rateGateTimes (1/10) 0 [0, 0]).length : ℚ) - 1) * (1/10) ≤
      (rateGateTimes (1/10) 0 [0, 0]).getLastD 0 -
        (rateGateTimes (1/10) 0 [0, 0]).headD 0 :=
  rate_gate_min_elapsed (1/10) 0 [0, 0] (by norm_num)
    (by intro a ha; simp only [List.mem_cons, List.mem_singleton] at ha
        rcases ha with rfl | rfl | h
        · norm_num
        · norm_num
        · simp at h)

/-! ## C9: idempotent kline writes -/

theorem insertOrIgnore_key_mono (tbl : List KRow) (r : KRow) (k : String × ℤ)
    (h : k ∈ tbl.map krowKey) : k ∈ (insertOrIgnore tbl r).map krowKey := by
  unfold insertOrIgnore
  split
  · exact h
  · simp only [List.map_append]
    exact List.mem_append_left _ h

theorem insertOrIgnore_key_self (tbl : List KRow) (r : KRow) :
    krowKey r ∈ (insertOrIgnore tbl r).map krowKey := by
  unfold insertOrIgnore
  split
  · next h =>
      rw [List.any_eq_true] at h
      obtain ⟨x, hx, hk⟩ := h
      rw [decide_eq_true_eq] at hk
      exact hk ▸ List.mem_map_of_mem krowKey hx
  · simp

theorem insertOrIgnore_of_key_mem (tbl : List KRow) (r : KRow)
    (h : krowKey r ∈ tbl.map krowKey) : insertOrIgnore tbl r = tbl := by
  unfold insertOrIgnore
  rw [if_pos]
  rw [List.any_eq_true]
  obtain ⟨x, hx, hk⟩ := List.mem_map.mp h
  exact ⟨x, hx, decide_eq_true hk⟩

theorem insertOrIgnore_key_nodup (tbl : List KRow) (r : KRow)
    (h : (tbl.map krowKey).Nodup) : ((insertOrIgnore tbl r).map krowKey).Nodup := by
  unfold insertOrIgnore
  split
  · exact h
  · next hany =>
      simp only [List.map_append, List.map_cons, List.map_nil]
      rw [List.nodup_append]
      refine ⟨h, List.nodup_singleton _, ?_⟩
      intro k hk hk1
      simp only [List.mem_singleton] at hk1
      subst hk1
      obtain ⟨x, hx, hkx⟩ := List.mem_map.mp hk
      exact hany (List.any_eq_true.mpr ⟨x, hx, decide_eq_true hkx⟩)

theorem save_klines_key_mono (rows : List KRow) (tbl : List KRow) (k : String × ℤ)
    (h : k ∈ tbl.map krowKey) :
    k ∈ (save_klines_by_interval tbl rows).map krowKey := by
  induction rows generalizing tbl with
  | nil => exact h
  | cons r rs ih => exact ih _ (insertOrIgnore_key_mono tbl r k h)

theorem save_klines_key_of_mem (rows : List KRow) (tbl : List KRow) (r : KRow)
    (hr : r ∈ rows) :
    krowKey r ∈ (save_klines_by_interval tbl rows).map krowKey := by
  induction rows generalizing tbl with
  | nil => simp at hr
  | cons x xs ih =>
    rcases List.mem_cons.mp hr with rfl | hmem
    · exact save_klines_key_mono xs _ _ (insertOrIgnore_key_self tbl r)
    · exact ih _ hmem

theorem save_klines_key_nodup (rows : List KRow) (tbl : List KRow)
    (h : (tbl.map krowKey).Nodup) :
    ((save_klines_by_interval tbl rows).map krowKey).Nodup := by
  induction rows generalizing tbl with
  | nil => exact h
  | cons r rs ih => exact ih _ (insertOrIgnore_key_nodup tbl r h)

theorem save_klines_of_keys_present (rows : List KRow) (tbl : List KRow)
    (h : ∀ r ∈ rows, krowKey r ∈ tbl.map krowKey) :
    save_klines_by_interval tbl rows = tbl := by
  induction rows generalizing tbl with
  | nil => rfl
  | cons r rs ih =>
    have h1 : insertOrIgnore tbl r = tbl := insertOrIgnore_of_key_mem tbl r (h r (by simp))
    show save_klines_by_interval (insertOrIgnore tbl r) rs = tbl
    rw [h1]
    exact ih tbl (fun x hx => h x (by simp [hx]))

theorem countP_key_eq_one {l : List (String × ℤ)} {k : String × ℤ}
    (hn : l.Nodup) (hm : k ∈ l) :
    l.countP (fun x => decide (x = k)) = 1 := by
  induction l with
  | nil => simp at hm
  | cons a as ih =>
    have hcons := List.nodup_cons.mp hn
    rcases List.mem_cons.mp hm with rfl | hmem
    · rw [List.countP_cons]
      simp only [decide_eq_true_eq]
      rw [List.countP_eq_zero.mpr]
      · simp
      · intro x hx
        simp only [decide_eq_true_eq]
        rintro rfl
        exact hcons.1 hx
    · have hne : ¬ (a = k) := by
        rintro rfl
        exact hcons.1 hmem
      rw [List.countP_cons, if_neg (by simpa using hne)]
      simpa using ih hcons.2 hmem

/-- C9: writing the same enriched rows twice through the kline-save
operation is idempotent — the second write is a no-op, never a duplicate
and never an error — and, starting from a table with unique
(symbol, timestamp) keys, the result keeps keys unique and stores exactly
one row per key of the written rows. -/
theorem save_klines_idempotent (tbl rows : List KRow)
    (h : (tbl.map krowKey).Nodup) :
    save_klines_by_interval (save_klines_by_interval tbl rows) rows =
        save_klines_by_interval tbl rows ∧
    ((save_klines_by_interval tbl rows).map krowKey).Nodup ∧
    ∀ r ∈ rows, ((save_klines_by_interval tbl rows).map krowKey).countP
      (fun k => decide (k = krowKey r)) = 1 := by
  refine ⟨?_, save_klines_key_nodup rows tbl h, ?_⟩
  · exact save_klines_of_keys_present rows _ (fun r hr => save_klines_key_of_mem rows tbl r hr)
  · intro r hr
    exact countP_key_eq_one (save_klines_key_nodup rows tbl h)
      (save_klines_key_of_mem rows tbl r hr)

/-- Witness for C9 at a concrete table and batch: an empty table and a
two-row batch whose rows share the symbol but not the timestamp. -/
theorem save_klines_idempotent_witness :
    save_klines_by_interval
        (save_klines_by_interval [] [⟨"BTCUSDT", 0, []⟩, ⟨"BTCUSDT", 3600000, []⟩])
        [⟨"BTCUSDT", 0, []⟩, ⟨"BTCUSDT", 3600000, []⟩] =
      save_klines_by_interval [] [⟨"BTCUSDT", 0, []⟩, ⟨"BTCUSDT", 3600000, []⟩] ∧
    ((save_klines_by_interval [] [⟨"BTCUSDT", 0, []⟩, ⟨"BTCUSDT", 3600000, []⟩]).map
        krowKey).Nodup ∧
    ∀ r ∈ [(⟨"BTCUSDT", 0, []⟩ : KRow), ⟨"BTCUSDT", 3600000, []⟩],
      ((save_klines_by_interval [] [⟨"BTCUSDT", 0, []⟩, ⟨"BTCUSDT", 3600000, []⟩]).map
          krowKey).countP (fun k => decide (k = krowKey r)) = 1 :=
  save_klines_idempotent [] [⟨"BTCUSDT", 0, []⟩, ⟨"BTCUSDT", 3600000, []⟩] (by simp)

/-! ## C7: uniform request errors -/

/-- Endpoint of the kline fetch, as used by `api.py get_klines`. -/
def klinesEndpoint : String := "/api/v3/klines"

/-- C7 counterexample: for the same endpoint, a transport failure
surfaces as `ValueError("Request failed: …")` while a 2xx response whose
body carries an API error code surfaces as `ValueError("API error: …")` —
the two messages differ in form, and the in-body error message carries
neither the endpoint nor any "request failed" wording, contradicting the
claim of one uniform "request failed" error carrying the endpoint. -/
theorem request_error_nonuniform_counterexample :
    mexc_request klinesEndpoint (.transportFail ("timeout")) =
        .error ("Request failed: timeout") ∧
    mexc_request klinesEndpoint (.httpResp 200 (.dictCode 500 ("oversized request"))) =
        .error ("API error: oversized request") ∧
    strContains ("API error: oversized request") ("Request failed") = false ∧
    strContains ("API error: oversized request") klinesEndpoint = false := by
  refine ⟨rfl, rfl, by decide, by decide⟩

/-- C7 amended: a transport failure, an HTTP error status (4xx/5xx) and a
2xx response whose body carries an API error code all surface as an error
of the same kind (the single ValueError channel of `_request`), whose
message is either `"Request failed: <cause>"` (transport and HTTP-status
failures) or `"API error: <body msg>"` (in-body error code, without the
endpoint); the call returns normally exactly when none of these
conditions hold. -/
theorem request_error_uniform_kind_amended (ep : String) (o : ReqOutcome) :
    ((∃ b, mexc_request ep o = .ok b) ↔
      (∃ s body, o = .httpResp s body ∧ ¬(400 ≤ s ∧ s < 600) ∧
        ∀ c m, body = .dictCode c m → c = 200)) ∧
    (∀ e, mexc_request ep o = .error e →
      ∃ c, e = (("Request failed: ") ++ c) ∨ e = (("API error: ") ++ c)) := by
  constructor
  · cases o with
    | transportFail cause => simp [mexc_request]
    | httpResp status body =>
      by_cases hs : 400 ≤ status ∧ status < 600
      · simp [mexc_request, hs]
      · cases body with
        | dictCode code msg =>
          by_cases hc : code = 200
          · subst hc
            refine iff_of_true ⟨.dictCode 200 msg, by simp [mexc_request, hs]⟩
              ⟨status, .dictCode 200 msg, rfl, hs, fun c m hcm => by cases hcm; rfl⟩
          · simp [mexc_request, hs, hc]
        | plain =>
          refine iff_of_true ⟨.plain, by simp [mexc_request, hs]⟩
            ⟨status, .plain, rfl, hs, fun c m hcm => nomatch hcm⟩
  · intro e he
    cases o with
    | transportFail cause =>
      refine ⟨cause, Or.inl ?_⟩
      simpa [mexc_request] using he.symm
    | httpResp status body =>
      by_cases hs : 400 ≤ status ∧ status < 600
      · refine ⟨httpErrorText status ep, Or.inl ?_⟩
        simp only [mexc_request, if_pos hs] at he
        exact (Except.error.injEq _ _ ▸ congrArg id he).symm ▸ by
          cases he
          rfl
      · cases body with
        | dictCode code msg =>
          by_cases hc : code = 200
          · simp [mexc_request, hs, hc] at he
          · refine ⟨msg, Or.inr ?_⟩
            simp only [mexc_request, if_neg hs] at he
            rw [if_pos hc] at he
            cases he
            rfl
        | plain => simp [mexc_request, hs] at he

/-- Witness for C7 amended, at a concrete transport failure. -/
theorem request_error_uniform_kind_amended_witness :
    ∃ c, ("Request failed: boom") = (("Request failed: ") ++ c) ∨
      ("Request failed: boom") = (("API error: ") ++ c) :=
  (request_error_uniform_kind_amended klinesEndpoint (.transportFail ("boom"))).2
    ("Request failed: boom") rfl

/-! ## C4: failure-count exclusion and universe sync -/

theorem increment_fail_count_ge (tbl : List SymRow) (s : String) (n : ℕ)
    (h : ∀ r ∈ tbl, r.name = s → n ≤ r.fail_count) :
    ∀ r ∈ increment_klines_fail_count tbl s, r.name = s → n + 1 ≤ r.fail_count := by
  have hbump : ∀ r ∈ tbl.map (fun r =>
      if r.name = s then (⟨r.name, r.is_active, r.fail_count + 1⟩ : SymRow) else r),
      r.name = s → n + 1 ≤ r.fail_count := by
    intro r hr hname
    obtain ⟨r0, hr0, rfl⟩ := List.mem_map.mp hr
    by_cases h0 : r0.name = s
    · simp only [if_pos h0]
      have := h r0 hr0 h0
      omega
    · simp only [if_neg h0] at hname ⊢
      exact absurd hname h0
  intro r hr hname
  simp only [increment_klines_fail_count] at hr
  split at hr
  · split at hr
    · obtain ⟨r1, hr1, rfl⟩ := List.mem_map.mp hr
      by_cases h1 : r1.name = s
      · simp only [if_pos h1]
        exact hbump r1 hr1 h1
      · simp only [if_neg h1] at hname ⊢
        exact absurd hname h1
    · exact hbump r hr hname
  · exact hbump r hr hname

theorem iterate_increment_fail_count (tbl : List SymRow) (s : String) (n : ℕ) :
    ∀ r ∈ (fun t => increment_klines_fail_count t s)^[n] tbl,
      r.name = s → n ≤ r.fail_count := by
  induction n generalizing tbl with
  | zero => intro r _ _; exact Nat.zero_le _
  | succ k ih =>
    rw [Function.iterate_succ_apply']
    exact increment_fail_count_ge _ s k (ih tbl)

theorem not_mem_get_all_of_count_ge (tbl : List SymRow) (s : String)
    (h : ∀ r ∈ tbl, r.name = s → MAX_KLINES_FAILURES ≤ r.fail_count) :
    s ∉ get_all_symbols tbl := by
  intro hmem
  unfold get_all_symbols at hmem
  obtain ⟨r, hr, rfl⟩ := List.mem_map.mp hmem
  obtain ⟨hrt, hcond⟩ := List.mem_filter.mp hr
  have hle := h r hrt rfl
  simp only [Bool.and_eq_true, decide_eq_true_eq] at hcond
  omega

theorem upsert_keeps_exists (t : List SymRow) (x s : String)
    (hex : ∃ r ∈ t, r.name = s) : ∃ r ∈ upsertSymbol t x, r.name = s := by
  obtain ⟨r, hr, hname⟩ := hex
  unfold upsertSymbol
  split
  · refine ⟨if r.name = x then ⟨r.name, true, r.fail_count⟩ else r, List.mem_map_of_mem _ hr, ?_⟩
    split <;> simpa using hname
  · exact ⟨r, List.mem_append_left _ hr, hname⟩

theorem upsert_count_ge (t : List SymRow) (x s : String)
    (hex : ∃ r ∈ t, r.name = s)
    (hc : ∀ r ∈ t, r.name = s → MAX_KLINES_FAILURES ≤ r.fail_count) :
    ∀ r ∈ upsertSymbol t x, r.name = s → MAX_KLINES_FAILURES ≤ r.fail_count := by
  intro r hr hname
  unfold upsertSymbol at hr
  split at hr
  · obtain ⟨r0, hr0, rfl⟩ := List.mem_map.mp hr
    by_cases h0 : r0.name = x
    · simp only [if_pos h0] at hname ⊢
      exact hc r0 hr0 hname
    · simp only [if_neg h0] at hname ⊢
      exact hc r0 hr0 hname
  · next hany =>
      rcases List.mem_append.mp hr with hmem | hmem
      · exact hc r hmem hname
      · simp only [List.mem_singleton] at hmem
        subst hmem
        exfalso
        obtain ⟨r1, hr1, hname1⟩ := hex
        have hxs : x = s := by simpa using hname
        exact hany (List.any_eq_true.mpr ⟨r1, hr1, decide_eq_true (hname1.trans hxs.symm)⟩)

theorem foldl_upsert_exists (api : List String) (t : List SymRow) (s : String)
    (hex : ∃ r ∈ t, r.name = s) :
    ∃ r ∈ api.foldl upsertSymbol t, r.name = s := by
  induction api generalizing t with
  | nil => exact hex
  | cons x xs ih => exact ih _ (upsert_keeps_exists t x s hex)

theorem foldl_upsert_count_ge (api : List String) (t : List SymRow) (s : String)
    (hex : ∃ r ∈ t, r.name = s)
    (hc : ∀ r ∈ t, r.name = s → MAX_KLINES_FAILURES ≤ r.fail_count) :
    ∀ r ∈ api.foldl upsertSymbol t, r.name = s → MAX_KLINES_FAILURES ≤ r.fail_count := by
  induction api generalizing t with
  | nil => exact hc
  | cons x xs ih =>
    exact ih _ (upsert_keeps_exists t x s hex) (upsert_count_ge t x s hex hc)

theorem upsert_keeps_active (t : List SymRow) (x s : String)
    (h : ∃ r ∈ t, r.name = s ∧ r.is_active = true) :
    ∃ r ∈ upsertSymbol t x, r.name = s ∧ r.is_active = true := by
  obtain ⟨r, hr, hname, hact⟩ := h
  unfold upsertSymbol
  split
  · refine ⟨if r.name = x then ⟨r.name, true, r.fail_count⟩ else r, List.mem_map_of_mem _ hr, ?_⟩
    split <;> simp [hname, hact]
  · exact ⟨r, List.mem_append_left _ hr, hname, hact⟩

theorem upsert_activates (t : List SymRow) (s : String)
    (hex : ∃ r ∈ t, r.name = s) :
    ∃ r ∈ upsertSymbol t s, r.name = s ∧ r.is_active = true := by
  obtain ⟨r, hr, hname⟩ := hex
  unfold upsertSymbol
  rw [if_pos (List.any_eq_true.mpr ⟨r, hr, decide_eq_true hname⟩)]
  refine ⟨⟨r.name, true, r.fail_count⟩, ?_, hname, rfl⟩
  have : (if r.name = s then (⟨r.name, true, r.fail_count⟩ : SymRow) else r)
      = ⟨r.name, true, r.fail_count⟩ := if_pos hname
  exact this ▸ List.mem_map_of_mem _ hr

theorem foldl_upsert_keeps_active (api : List String) (t : List SymRow) (s : String)
    (h : ∃ r ∈ t, r.name = s ∧ r.is_active = true) :
    ∃ r ∈ api.foldl upsertSymbol t, r.name = s ∧ r.is_active = true := by
  induction api generalizing t with
  | nil => exact h
  | cons x xs ih => exact ih _ (upsert_keeps_active t x s h)

theorem foldl_upsert_active (api : List String) (t : List SymRow) (s : String)
    (hs : s ∈ api) (hex : ∃ r ∈ t, r.name = s) :
    ∃ r ∈ api.foldl upsertSymbol t, r.name = s ∧ r.is_active = true := by
  obtain ⟨l1, l2, rfl⟩ := List.append_of_mem hs
  rw [List.foldl_append, List.foldl_cons]
  exact foldl_upsert_keeps_active l2 _ s
    (upsert_activates _ s (foldl_upsert_exists l1 t s hex))

theorem increment_keeps_exists (t : List SymRow) (s x : String)
    (hex : ∃ r ∈ t, r.name = x) :
    ∃ r ∈ increment_klines_fail_count t s, r.name = x := by
  obtain ⟨r, hr, hname⟩ := hex
  simp only [increment_klines_fail_count]
  split
  · split
    · refine ⟨_, List.mem_map_of_mem _ (List.mem_map_of_mem _ hr), ?_⟩
      by_cases hcase : r.name = s
      · have hsx : s = x := hcase ▸ hname
        simp [hcase, hsx]
      · have hxs : ¬ x = s := fun h => hcase (by rw [hname, h])
        simp [hname, hxs]
    · refine ⟨_, List.mem_map_of_mem _ hr, ?_⟩
      by_cases hcase : r.name = s
      · have hsx : s = x := hcase ▸ hname
        simp [hcase, hsx]
      · have hxs : ¬ x = s := fun h => hcase (by rw [hname, h])
        simp [hname, hxs]
  · refine ⟨_, List.mem_map_of_mem _ hr, ?_⟩
    by_cases hcase : r.name = s
    · have hsx : s = x := hcase ▸ hname
      simp [hcase, hsx]
    · have hxs : ¬ x = s := fun h => hcase (by rw [hname, h])
      simp [hname, hxs]

theorem iterate_increment_keeps_exists (tbl : List SymRow) (s x : String) (n : ℕ)
    (hex : ∃ r ∈ tbl, r.name = x) :
    ∃ r ∈ (fun t => increment_klines_fail_count t s)^[n] tbl, r.name = x := by
  induction n generalizing tbl with
  | zero => exact hex
  | succ k ih =>
    rw [Function.iterate_succ_apply']
    exact increment_keeps_exists _ s x (ih tbl hex)

theorem mem_get_all_reset (t : List SymRow) (s : String)
    (h : ∃ r ∈ t, r.name = s ∧ r.is_active = true) :
    s ∈ get_all_symbols (reset_klines_fail_count t s) := by
  obtain ⟨r, hr, hname, hact⟩ := h
  unfold get_all_symbols reset_klines_fail_count
  have himg : (⟨r.name, r.is_active, 0⟩ : SymRow) ∈
      t.map (fun q => if q.name = s then ⟨q.name, q.is_active, 0⟩ else q) := by
    have hm := List.mem_map_of_mem
      (fun q => if q.name = s then (⟨q.name, q.is_active, 0⟩ : SymRow) else q) hr
    simp only [if_pos hname] at hm
    exact hm
  refine List.mem_map.mpr ⟨⟨r.name, r.is_active, 0⟩, List.mem_filter.mpr ⟨himg, ?_⟩, hname⟩
  simp [hact, MAX_KLINES_FAILURES]

/-- Concrete one-symbol table used in the C4 counterexample and witness. -/
def symTbl0 : List SymRow := [⟨"AAAUSDT", true, 0⟩]

/-- C4 counterexample: after 5 consecutive recorded kline-fetch failures
the symbol is absent from the active-symbol query; the next universe sync
re-activates it (`is_active = true`, second conjunct) — but the symbol is
STILL absent from `get_all_symbols` (first conjunct), because the sync's
upsert does not reset `klines_fail_count` and the query also filters on
`klines_fail_count < MAX_KLINES_FAILURES`. The claim says the symbol
reappears in the query results after the sync; it does not. -/
theorem sync_no_reactivation_counterexample :
    ("AAAUSDT" ∉ get_all_symbols
        (init_symbols_db ((fun t => increment_klines_fail_count t ("AAAUSDT"))^[5] symTbl0)
          ["AAAUSDT"])) ∧
    (∃ r ∈ init_symbols_db ((fun t => increment_klines_fail_count t ("AAAUSDT"))^[5] symTbl0)
        ["AAAUSDT"], r.name = "AAAUSDT" ∧ r.is_active = true) := by
  decide

/-- C4 amended: for a symbol present in the symbols table, after 5
consecutive recorded kline-fetch failures the symbol is absent from the
active-symbol query results; it REMAINS absent after the next universe
sync re-activates it (the sync restores `is_active` but does not reset the
failure counter, and the query filters on both); it reappears only once
the failure counter is also explicitly reset
(`reset_klines_fail_count`, invoked on a successful fetch). -/
theorem fail_count_exclusion_amended (tbl : List SymRow) (s : String) (api : List String)
    (hex : ∃ r ∈ tbl, r.name = s) (hapi : s ∈ api) :
    (s ∉ get_all_symbols ((fun t => increment_klines_fail_count t s)^[5] tbl)) ∧
    (s ∉ get_all_symbols
      (init_symbols_db ((fun t => increment_klines_fail_count t s)^[5] tbl) api)) ∧
    (s ∈ get_all_symbols (reset_klines_fail_count
      (init_symbols_db ((fun t => increment_klines_fail_count t s)^[5] tbl) api) s)) := by
  have hcount5 : ∀ r ∈ (fun t => increment_klines_fail_count t s)^[5] tbl,
      r.name = s → MAX_KLINES_FAILURES ≤ r.fail_count :=
    iterate_increment_fail_count tbl s 5
  have hex5 : ∃ r ∈ (fun t => increment_klines_fail_count t s)^[5] tbl, r.name = s :=
    iterate_increment_keeps_exists tbl s s 5 hex
  have hexD : ∃ r ∈ ((fun t => increment_klines_fail_count t s)^[5] tbl).map
      (fun r => (⟨r.name, false, r.fail_count⟩ : SymRow)), r.name = s := by
    obtain ⟨r, hr, hname⟩ := hex5
    exact ⟨_, List.mem_map_of_mem _ hr, hname⟩
  have hcD : ∀ r ∈ ((fun t => increment_klines_fail_count t s)^[5] tbl).map
      (fun r => (⟨r.name, false, r.fail_count⟩ : SymRow)),
      r.name = s → MAX_KLINES_FAILURES ≤ r.fail_count := by
    intro r hr hname
    obtain ⟨r0, hr0, rfl⟩ := List.mem_map.mp hr
    exact hcount5 r0 hr0 hname
  refine ⟨not_mem_get_all_of_count_ge _ s hcount5, ?_, ?_⟩
  · exact not_mem_get_all_of_count_ge _ s
      (foldl_upsert_count_ge api _ s hexD hcD)
  · exact mem_get_all_reset _ s (foldl_upsert_active api _ s hapi hexD)

/-- Witness for C4 amended at the concrete one-symbol table. -/
theorem fail_count_exclusion_amended_witness :
    ("AAAUSDT" ∉ get_all_symbols
        ((fun t => increment_klines_fail_count t ("AAAUSDT"))^[5] symTbl0)) ∧
    ("AAAUSDT" ∉ get_all_symbols
      (init_symbols_db ((fun t => increment_klines_fail_count t ("AAAUSDT"))^[5] symTbl0)
        ["AAAUSDT"])) ∧
    ("AAAUSDT" ∈ get_all_symbols (reset_klines_fail_count
      (init_symbols_db ((fun t => increment_klines_fail_count t ("AAAUSDT"))^[5] symTbl0)
        ["AAAUSDT"]) ("AAAUSDT"))) :=
  fail_count_exclusion_amended symTbl0 ("AAAUSDT") ["AAAUSDT"]
    ⟨⟨"AAAUSDT", true, 0⟩, by simp [symTbl0], rfl⟩ (by simp)

/-! ## C5: the hourly ranked snapshot -/

/-- C5: the ranked snapshot produced by the hourly scan consists only of
scanned candidates with strictly positive composite score (and, whenever
at most 100 candidates are positive, of all of them), contains at most
100 entries, is ordered by descending score, and assigns each entry a
rank equal to its 1-based position. -/
theorem hourly_top_list_spec (cands : List Candidate) :
    (∀ r ∈ hourlyTopList cands,
        0 < r.prob_score ∧ (⟨r.symbol, r.prob_score⟩ : Candidate) ∈ cands) ∧
    (hourlyTopList cands).length ≤ 100 ∧
    (hourlyTopList cands).Pairwise (fun a b => b.prob_score ≤ a.prob_score) ∧
    (∀ i (h : i < (hourlyTopList cands).length),
        ((hourlyTopList cands).get ⟨i, h⟩).rank = i + 1) ∧
    ((cands.filter fun c => decide (0 < c.prob_score)).length ≤ 100 →
      ∀ c ∈ cands, 0 < c.prob_score →
        ∃ r ∈ hourlyTopList cands,
          r.symbol = c.symbol ∧ r.prob_score = c.prob_score) := by
  have hdef : hourlyTopList cands =
      (((cands.filter fun c => decide (0 < c.prob_score)).mergeSort
          (fun a b => decide (b.prob_score ≤ a.prob_score))).take 100).enum.map
        (fun p => ⟨p.2.symbol, p.2.prob_score, p.1 + 1⟩) := rfl
  have hperm := List.mergeSort_perm (cands.filter fun c => decide (0 < c.prob_score))
    (fun a b => decide (b.prob_score ≤ a.prob_score))
  have htrans : ∀ a b c : Candidate,
      (fun a b : Candidate => decide (b.prob_score ≤ a.prob_score)) a b = true →
      (fun a b : Candidate => decide (b.prob_score ≤ a.prob_score)) b c = true →
      (fun a b : Candidate => decide (b.prob_score ≤ a.prob_score)) a c = true := by
    intro a b c h1 h2
    simp only [decide_eq_true_eq] at h1 h2 ⊢
    exact h2.trans h1
  have htotal : ∀ a b : Candidate,
      ((fun a b : Candidate => decide (b.prob_score ≤ a.prob_score)) a b ||
        (fun a b : Candidate => decide (b.prob_score ≤ a.prob_score)) b a) = true := by
    intro a b
    simp only [Bool.or_eq_true, decide_eq_true_eq]
    exact le_total b.prob_score a.prob_score
  have hsorted := List.sorted_mergeSort htrans htotal
    (cands.filter fun c => decide (0 < c.prob_score))
  have hlen_take_le : (((cands.filter fun c => decide (0 < c.prob_score)).mergeSort
      (fun a b => decide (b.prob_score ≤ a.prob_score))).take 100).length ≤
      ((cands.filter fun c => decide (0 < c.prob_score)).mergeSort
        (fun a b => decide (b.prob_score ≤ a.prob_score))).length := by
    rw [List.length_take]
    exact min_le_right _ _
  refine ⟨?_, ?_, ?_, ?_, ?_⟩
  · intro r hr
    rw [hdef] at hr
    obtain ⟨⟨i, c⟩, hmem, rfl⟩ := List.mem_map.mp hr
    obtain ⟨hi, hc⟩ := List.mem_enum hmem
    have hctake : c ∈ ((cands.filter fun c => decide (0 < c.prob_score)).mergeSort
        (fun a b => decide (b.prob_score ≤ a.prob_score))).take 100 :=
      hc ▸ List.getElem_mem hi
    have hcsorted := List.take_subset _ _ hctake
    have hcpos := hperm.mem_iff.mp hcsorted
    obtain ⟨hcand, hpos⟩ := List.mem_filter.mp hcpos
    refine ⟨of_decide_eq_true hpos, ?_⟩
    obtain ⟨csym, cscore⟩ := c
    exact hcand
  · rw [hdef]
    simp only [List.length_map, List.enum_length, List.length_take]
    exact min_le_left _ _
  · rw [hdef, List.pairwise_iff_getElem]
    intro i j hi hj hij
    simp only [List.length_map, List.enum_length] at hi hj
    simp only [List.getElem_map, List.getElem_enum]
    show (((cands.filter fun c => decide (0 < c.prob_score)).mergeSort
        (fun a b => decide (b.prob_score ≤ a.prob_score))).take 100)[j].prob_score ≤
      (((cands.filter fun c => decide (0 < c.prob_score)).mergeSort
        (fun a b => decide (b.prob_score ≤ a.prob_score))).take 100)[i].prob_score
    rw [List.getElem_take, List.getElem_take]
    exact of_decide_eq_true ((List.pairwise_iff_getElem.mp hsorted) i j
      (lt_of_lt_of_le hi hlen_take_le) (lt_of_lt_of_le hj hlen_take_le) hij)
  · intro i h
    revert h
    rw [hdef]
    intro h
    simp only [List.get_eq_getElem, List.getElem_map, List.getElem_enum]
  · intro hlen c hc hcpos
    have hslen : ((cands.filter fun c => decide (0 < c.prob_score)).mergeSort
        (fun a b => decide (b.prob_score ≤ a.prob_score))).length =
        (cands.filter fun c => decide (0 < c.prob_score)).length := hperm.length_eq
    have htake : ((cands.filter fun c => decide (0 < c.prob_score)).mergeSort
        (fun a b => decide (b.prob_score ≤ a.prob_score))).take 100 =
        (cands.filter fun c => decide (0 < c.prob_score)).mergeSort
          (fun a b => decide (b.prob_score ≤ a.prob_score)) :=
      List.take_of_length_le (by omega)
    have hcs : c ∈ (cands.filter fun c => decide (0 < c.prob_score)).mergeSort
        (fun a b => decide (b.prob_score ≤ a.prob_score)) :=
      hperm.mem_iff.mpr (List.mem_filter.mpr ⟨hc, decide_eq_true hcpos⟩)
    obtain ⟨i, hi, hci⟩ := List.mem_iff_getElem.mp hcs
    refine ⟨⟨c.symbol, c.prob_score, i + 1⟩, ?_, rfl, rfl⟩
    rw [hdef, htake]
    have hienum : i < ((cands.filter fun c => decide (0 < c.prob_score)).mergeSort
        (fun a b => decide (b.prob_score ≤ a.prob_score))).enum.length := by
      simpa [List.enum_length] using hi
    have henum : ((cands.filter fun c => decide (0 < c.prob_score)).mergeSort
        (fun a b => decide (b.prob_score ≤ a.prob_score))).enum[i] = (i, c) := by
      rw [List.getElem_enum, hci]
    have hmem := List.getElem_mem hienum
    rw [henum] at hmem
    exact List.mem_map.mpr ⟨(i, c), hmem, rfl⟩

/-- Witness for C5 at a concrete two-candidate scan, through the
completeness clause. -/
theorem hourly_top_list_spec_witness :
    ∃ r ∈ hourlyTopList [⟨"AAAUSDT", 1/2⟩, ⟨"BBBUSDT", 3/4⟩],
      r.symbol = "BBBUSDT" ∧ r.prob_score = 3/4 :=
  (hourly_top_list_spec [⟨"AAAUSDT", 1/2⟩, ⟨"BBBUSDT", 3/4⟩]).2.2.2.2
    (le_trans (List.length_filter_le _ _) (by norm_num))
    ⟨"BBBUSDT", 3/4⟩ (by simp) (by norm_num)

/-! ## C1: the composite probability score -/

/-- C1 amended: an input with fewer than 50 rows yields exactly 0 from
both scorers; every per-index value of `calculate_probability_score_series`
lies within [-1, 1] (its terms are `fillna(0)`-ed before the clip); and
the composite score of `get_probability_score` lies within [-1, 1]
WHENEVER IT IS A NUMBER — on inputs whose last RSI or volume-ratio value
is undefined (e.g. constant prices), the scalar scorer returns NaN, which
lies outside every interval. -/
theorem prob_score_range_amended (df : Frame) :
    (df.close.length < 50 →
      get_probability_score df = some 0 ∧
      calculate_probability_score_series df = List.replicate df.close.length 0) ∧
    (∀ q, get_probability_score df = some q → -1 ≤ q ∧ q ≤ 1) ∧
    (∀ x ∈ calculate_probability_score_series df, -1 ≤ x ∧ x ≤ 1) := by
  refine ⟨fun h => ⟨by simp [get_probability_score, h],
    by simp [calculate_probability_score_series, h]⟩, ?_, ?_⟩
  · intro q hq
    unfold get_probability_score at hq
    split at hq
    · cases hq
      norm_num
    · simp only [Option.map_eq_some'] at hq
      obtain ⟨y, -, rfl⟩ := hq
      exact clip1_mem y
  · intro x hx
    unfold calculate_probability_score_series at hx
    split at hx
    · rw [List.eq_of_mem_replicate hx]
      norm_num
    · simp only [List.mem_map] at hx
      obtain ⟨y, -, rfl⟩ := hx
      exact clip1_mem y

/-- Witness for C1 amended: a one-row frame scores exactly 0 in both
scorers, and a concrete defined score lies within the bounds. -/
theorem prob_score_range_amended_witness :
    (get_probability_score ⟨[1], [1], rfl⟩ = some 0 ∧
      calculate_probability_score_series ⟨[1], [1], rfl⟩ = List.replicate 1 0) ∧
    (-1 ≤ (0 : ℚ) ∧ (0 : ℚ) ≤ 1) :=
  ⟨(prob_score_range_amended ⟨[1], [1], rfl⟩).1 (by norm_num),
   (prob_score_range_amended ⟨[1], [1], rfl⟩).2.1 0
     ((prob_score_range_amended ⟨[1], [1], rfl⟩).1 (by norm_num)).1⟩

theorem zipWith_map_same {α β γ δ : Type} (f : β → γ → δ) (g : α → β) (h : α → γ)
    (l : List α) :
    List.zipWith f (l.map g) (l.map h) = l.map (fun x => f (g x) (h x)) := by
  induction l with
  | nil => rfl
  | cons a as ih => simp [ih]

theorem prob_score_none_of_rsi_none (df : Frame) (h50 : ¬ df.close.length < 50)
    (h : (calculate_rsi (df.close.map some) 14).getLastD none = none) :
    get_probability_score df = none := by
  unfold get_probability_score
  rw [if_neg h50]
  simp only [h, Option.map_none', Option.none_bind]

theorem sdiff_replicate (n : ℕ) (c : ℚ) :
    sdiff (List.replicate (n + 1) (some c)) = none :: List.replicate n (some 0) := by
  unfold sdiff shift1
  rw [List.length_replicate, List.take_succ_cons, List.take_replicate,
    min_eq_left (Nat.le_succ n)]
  conv_lhs => rw [List.replicate_succ]
  rw [List.zipWith_cons_cons, zipWith_replicate_same]
  simp [pmap2, sub_self]

theorem posPart_zero_replicate (n : ℕ) :
    posPart (none :: List.replicate n (some (0 : ℚ))) = List.replicate (n + 1) (some 0) := by
  unfold posPart
  rw [List.map_cons, List.map_replicate, List.replicate_succ]
  simp [pgt, ite_self]

theorem negPart_zero_replicate (n : ℕ) :
    negPart (none :: List.replicate n (some (0 : ℚ))) = List.replicate (n + 1) (some 0) := by
  unfold negPart
  rw [List.map_cons, List.map_replicate, List.replicate_succ]
  simp [plt, neg_zero, ite_self]

theorem rollingMean_zero_replicate (w n : ℕ) :
    rollingMean w (List.replicate n (some (0 : ℚ))) =
      (List.range n).map (fun i => if i + 1 < w then none else some 0) := by
  unfold rollingMean rollingApply
  rw [List.length_replicate]
  refine List.map_congr_left ?_
  intro i hi
  have hin : i < n := List.mem_range.mp hi
  by_cases hiw : i + 1 < w
  · simp [hiw]
  · rw [if_neg hiw, if_neg hiw]
    show (if ((rwindow w (List.replicate n (some (0:ℚ))) i).all Option.isSome) = true
      then some (((rwindow w (List.replicate n (some (0:ℚ))) i).map (fun o => o.getD 0)).sum / (w : ℚ))
      else none) = some 0
    unfold rwindow
    rw [List.take_replicate, List.drop_replicate,
      if_pos (all_replicate_of_pred Option.isSome _ (some (0 : ℚ)) rfl), List.map_replicate]
    simp [List.sum_replicate, zero_div]

theorem rsi_last_const_none :
    (calculate_rsi (List.replicate 50 (some (1 : ℚ))) 14).getLastD none = none := by
  have h1 : sdiff (List.replicate 50 (some (1 : ℚ))) = none :: List.replicate 49 (some 0) := by
    have h := sdiff_replicate 49 1
    norm_num at h
    exact h
  have h2 := posPart_zero_replicate 49
  have h3 := negPart_zero_replicate 49
  norm_num at h2 h3
  simp only [calculate_rsi, h1, h2, h3, rollingMean_zero_replicate 14 50,
    zipWith_map_same]
  have h50 : List.range 50 = List.range 49 ++ [49] := List.range_succ 49
  rw [h50, List.map_append, List.map_singleton, List.getLastD_concat]
  norm_num [rsiPoint]

/-- C1 counterexample: a finite-valued 50-row OHLCV frame with constant
close 1 and constant volume 1 makes `get_probability_score` return NaN
(undefined), which does not lie within [-1, 1]: the RSI term is
`0/0 = NaN` on a constant tail (zero rolling gain and zero rolling loss)
and propagates unfilled through the weighted sum and `np.clip`. -/
theorem prob_score_nan_counterexample :
    get_probability_score ⟨List.replicate 50 1, List.replicate 50 1, rfl⟩ = none := by
  apply prob_score_none_of_rsi_none
  · norm_num
  · show (calculate_rsi ((List.replicate 50 (1 : ℚ)).map some) 14).getLastD none = none
    rw [List.map_replicate]
    exact rsi_last_const_none

/-! ## C2: warm-up behaviour of the indicator library -/

theorem rollingApply_all_none (f : List ℚ → ℚ) (w : ℕ) (s : Series)
    (hlen : s.length < w) : ∀ x ∈ rollingApply f w s, x = none := by
  intro x hx
  unfold rollingApply at hx
  obtain ⟨i, hi, rfl⟩ := List.mem_map.mp hx
  have hir := List.mem_range.mp hi
  exact if_pos (by omega)

theorem rollingMean_all_none (w : ℕ) (s : Series) (hlen : s.length < w) :
    ∀ x ∈ rollingMean w s, x = none :=
  rollingApply_all_none _ w s hlen

theorem shift1_length (s : Series) : (shift1 s).length = s.length := by
  unfold shift1
  rw [List.length_take, List.length_cons]
  omega

theorem sdiff_length (s : Series) : (sdiff s).length = s.length := by
  unfold sdiff
  rw [List.length_zipWith, shift1_length]
  omega

theorem pct_change_length (s : List ℚ) : (pct_change s).length = s.length := by
  unfold pct_change
  rw [List.length_zipWith, shift1_length, List.length_map]
  omega

/-- C2 amended: SMA, RSI, volume ratio and volatility are undefined (NaN)
at every index whenever the input is shorter than the rolling window;
but volume spike outputs the integer 0 or 1 at every index (a NaN rolling
average merely compares False, it never makes the output undefined), and
MACD — computed from warm-up-free EWMs — outputs a finite number at every
index of the input, including inputs far shorter than its slow span. -/
theorem warmup_undefined_amended :
    (∀ (s : Series) (w : ℕ), s.length < w → ∀ x ∈ calculate_sma s w, x = none) ∧
    (∀ (s : Series) (p : ℕ), s.length < p → ∀ x ∈ calculate_rsi s p, x = none) ∧
    (∀ (df : Frame) (p : ℕ), df.volume.length < p → ∀ x ∈ volume_ratio df p, x = none) ∧
    (∀ (df : Frame) (w : ℕ) (b : Bool), df.close.length < w →
      ∀ x ∈ calculate_volatility_sq df w b, x = none) ∧
    (∀ (df : Frame) (m : ℚ) (p : ℕ), ∀ x ∈ volume_spike df m p, x = 0 ∨ x = 1) ∧
    (∀ (s : List ℚ) (f sl sg : ℕ), (calculate_macd s f sl sg).hist.length = s.length) := by
  refine ⟨?_, ?_, ?_, ?_, ?_, ?_⟩
  · intro s w hlen
    exact rollingMean_all_none w s hlen
  · intro s p hlen x hx
    simp only [calculate_rsi] at hx
    obtain ⟨a, ha, b, hb, rfl⟩ := mem_zipWith_exists hx
    have ha0 : a = none := by
      refine rollingMean_all_none p _ ?_ a ha
      unfold posPart
      rw [List.length_map, sdiff_length]
      exact hlen
    subst ha0
    cases b <;> rfl
  · intro df p hlen x hx
    simp only [volume_ratio] at hx
    obtain ⟨v, hv, a, ha, rfl⟩ := mem_zipWith_exists hx
    have ha0 : a = none := by
      refine rollingMean_all_none p _ ?_ a ha
      rw [List.length_map]
      exact hlen
    subst ha0
    rfl
  · intro df w b hlen x hx
    simp only [calculate_volatility_sq] at hx
    obtain ⟨o, ho, rfl⟩ := List.mem_map.mp hx
    have ho0 : o = none := by
      refine rollingApply_all_none sampleVar w _ ?_ o ho
      rw [pct_change_length]
      exact hlen
    subst ho0
    rfl
  · intro df m p x hx
    simp only [volume_spike] at hx
    obtain ⟨v, hv, a, ha, rfl⟩ := mem_zipWith_exists hx
    split
    · exact Or.inr rfl
    · exact Or.inl rfl
  · intro s f sl sg
    show (List.zipWith (· - ·)
      (List.zipWith (· - ·) (ewmMean f s) (ewmMean sl s))
      (ewmMean sg (List.zipWith (· - ·) (ewmMean f s) (ewmMean sl s)))).length = s.length
    rw [List.length_zipWith, ewmMean_length, List.length_zipWith,
      ewmMean_length, ewmMean_length]
    omega

/-- C2 counterexample: on a one-row frame — shorter than the volume-spike
warm-up period 10 and the MACD slow span 26 — the volume-spike output at
index 0 is the number 0 (not undefined), and the MACD histogram at index
0 is the number 0 (not undefined): the claim that every indicator is
undefined at every index under its warm-up fails for these two. -/
theorem warmup_defined_output_counterexample :
    volume_spike ⟨[1], [1], rfl⟩ 2 10 = [0] ∧
    (calculate_macd [1] 12 26 9).hist = [0] := by
  constructor
  · norm_num [volume_spike, rollingMean, rollingApply, rwindow, pgt,
      List.range_succ]
  · norm_num [calculate_macd, ewmMean, ewmGo]

/-- Witness for C2 amended: the SMA of a 1-long series with window 2 is
undefined at its only index, the spike output 0 is one of the two
integers, and the MACD histogram of a 1-long input has an output at its
only index. -/
theorem warmup_undefined_amended_witness :
    ((none : PVal) = none) ∧ ((0 : ℤ) = 0 ∨ (0 : ℤ) = 1) ∧
      (calculate_macd [1] 12 26 9).hist.length = 1 :=
  ⟨warmup_undefined_amended.1 [some 1] 2 (by norm_num) none
      (by norm_num [calculate_sma, rollingMean, rollingApply, List.range_succ]),
   warmup_undefined_amended.2.2.2.2.1 ⟨[1], [1], rfl⟩ 2 10 0
      (by norm_num [volume_spike, rollingMean, rollingApply, rwindow, pgt,
        List.range_succ]),
   warmup_undefined_amended.2.2.2.2.2 [1] 12 26 9⟩

/-- Witness for C8 amended: a strictly negative momentum value emits no
Signal. -/
theorem momentum_gate_amended_witness :
    poll_5m_confirm_signal (some (-1)) 100 = none :=
  (momentum_gate_amended (some (-1)) 100).2.mpr ⟨-1, rfl, by norm_num⟩

end Stockast
